import Mathlib

/-!
Shallow embedding of the `slic` command-line argument parser
(`src/include/slic.hpp`) for verification of its specification.

Modelling conventions:
* a token (`std::string_view`) is a Lean `String`; the raw argument vector
  (`argc`/`argv`) is a `List String` whose element 0 is the program name;
* the caller-defined result record is modelled as a write log
  (`Record := List (Nat × Value)`): each member-pointer assignment
  `m_options.*field = v` prepends `(field, v)`; a field never written is
  absent from the log and thus keeps its default;
* the compile-time heterogeneous declaration tuple `T::Options` is an
  ordered `List Decl`; the closed universe `FieldTy` covers the field
  types exercised by the library (bool, string_view, integral types of a
  given signedness/width, floating point); `std::optional` wrapping is
  recorded as a flag on positional specs (`unwrap_optional_t` is applied
  before coercion, exactly as the source does);
* `std::from_chars` on integers is modelled exactly (optional minus sign
  for signed types, longest digit run, out-of-range check); on floating
  point the full `chars_format::general` grammar is modelled: decimal
  values are kept exactly as a mantissa times a power of ten, the
  case-insensitive inf/infinity and nan spellings are accepted, and the
  `result_out_of_range` condition is modelled through the type's exact
  overflow and underflow-to-zero thresholds (only the binary rounding of
  in-range finite values is not represented);
* the `for` loop of `ArgParser::parse` is a structurally recursive
  function on a fuel argument; `parse` supplies fuel `argv.length`,
  which bounds the iteration count since the index strictly increases.
-/

namespace Slic

/-- Error kinds of the parser (`enum class ParseError`). -/
inductive ParseError : Type
  | None
  | MissingValue
  | InvalidValue
  | UnknownOption
  | MissingRequiredArg
  | TooManyArgs
  deriving DecidableEq, Repr

/-- Result of a parsing operation (`struct ParseResult`): an error kind and
a context token. -/
structure ParseResult : Type where
  error : ParseError
  context : String
  deriving DecidableEq, Repr

/-- Mirrors `ParseResult::success()`. -/
def ParseResult.success : ParseResult := ⟨ParseError.None, ""⟩

/-- Mirrors `ParseResult::failure(err, ctx)`. -/
def ParseResult.failure (e : ParseError) (ctx : String) : ParseResult := ⟨e, ctx⟩

/-- Mirrors `ParseResult::isOk()`. -/
def ParseResult.isOk (r : ParseResult) : Bool := decide (r.error = ParseError.None)

/-- Closed universe of (unwrapped) field types a declaration can bind:
`bool`, `std::string_view`, the integral types (signedness and bit width),
and the floating-point types (bit width: 32 for `float`, 64 for
`double`). -/
inductive FieldTy : Type
  | bool
  | string
  | int (signed : Bool) (bits : Nat)
  | float (bits : Nat)
  deriving DecidableEq, Repr

/-- Value denoted by a floating-point `from_chars` pattern: a finite
decimal kept exactly as `mantissa * 10 ^ exp10`, an infinity spelling
(with its sign), or a nan spelling. -/
inductive FloatVal : Type
  | finite (mantissa : Int) (exp10 : Int)
  | inf (neg : Bool)
  | nan
  deriving DecidableEq, Repr

/-- A typed value assigned into the result record; `span` is the
`ArgSpan` suffix view written by `setVarArgs`. -/
inductive Value : Type
  | bool (b : Bool)
  | str (s : String)
  | int (i : Int)
  | float (v : FloatVal)
  | span (args : List String)
  deriving DecidableEq, Repr

/-- The caller's result record, as the log of member assignments performed
by the parser (most recent first).  A field absent from the log was never
written and keeps its default value. -/
abbrev Record : Type := List (Nat × Value)

/-- One member-pointer assignment `m_options.*field = v`. -/
def setField (r : Record) (f : Nat) (v : Value) : Record := (f, v) :: r

/-- Reads the current value of field `f`: the most recent write, or `none`
when the field was never written (i.e. it still holds its default). -/
def getField (r : Record) (f : Nat) : Option Value :=
  (r.find? (fun p => decide (p.1 = f))).map (fun p => p.2)

/-- A command-line option declaration (`struct Option`): primary name,
alternate name (empty when absent), the unwrapped type of the bound field
(`detail::unwrap_optional_t<T>`), and the bound field. -/
structure OptionSpec : Type where
  name : String
  altName : String
  ty : FieldTy
  field : Nat
  deriving DecidableEq, Repr

/-- Mirrors `Option::matches`: exact comparison against the primary name,
then the alternate name. -/
def OptionSpec.matches (o : OptionSpec) (arg : String) : Bool :=
  arg == o.name || arg == o.altName

/-- A positional argument declaration (`struct Arg`): name label, the
unwrapped type of the bound field, whether the field type is
`std::optional`-wrapped (`Arg::isOptional`), and the bound field. -/
structure ArgSpec : Type where
  name : String
  ty : FieldTy
  isOptional : Bool
  field : Nat
  deriving DecidableEq, Repr

/-- One element of the ordered declaration tuple `T::Options`. -/
inductive Decl : Type
  | option (o : OptionSpec)
  | arg (a : ArgSpec)
  | varargs (field : Nat)
  deriving DecidableEq, Repr

/-- The option declarations, in declaration order (`forEachOption`). -/
def options : List Decl → List OptionSpec
  | [] => []
  | Decl.option o :: ds => o :: options ds
  | _ :: ds => options ds

/-- The positional declarations, in declaration order (`forEachArg`). -/
def positionals : List Decl → List ArgSpec
  | [] => []
  | Decl.arg a :: ds => a :: positionals ds
  | _ :: ds => positionals ds

/-- The fields bound by variadic declarations, in declaration order. -/
def varArgsFields : List Decl → List Nat
  | [] => []
  | Decl.varargs f :: ds => f :: varArgsFields ds
  | _ :: ds => varArgsFields ds

/-- Mirrors `arg.starts_with('-')`: the token's first character is a dash
(kept as an explicit head test so that it evaluates by reduction). -/
def startsWithDash (arg : String) : Bool :=
  match arg.data with
  | c :: _ => c = '-'
  | [] => false

/-- Mirrors `ArgParser::hasVarArgs()`. -/
def hasVarArgs (ds : List Decl) : Bool :=
  ds.any (fun d => match d with | Decl.varargs _ => true | _ => false)

namespace ValueParser

/-- Mirrors `ValueParser<bool>::parse`: case-sensitive match against the
true spellings, then the false spellings. -/
def parseBool (input : String) : Option Bool :=
  if input = "true" ∨ input = "1" ∨ input = "yes" ∨ input = "on" ∨ input = "y" then
    some true
  else if input = "false" ∨ input = "0" ∨ input = "no" ∨ input = "off" ∨ input = "n" then
    some false
  else
    none

/-- The longest run of decimal digits at the head of the character list,
and the remaining characters. -/
def takeDigits : List Char → List Char × List Char
  | [] => ([], [])
  | c :: cs =>
    if c.isDigit then
      let p := takeDigits cs
      (c :: p.1, p.2)
    else ([], c :: cs)

/-- Value of a digit run, most significant digit first. -/
def digitsToNat (ds : List Char) : Nat :=
  ds.foldl (fun acc c => acc * 10 + (c.toNat - 48)) 0

/-- Model of `std::from_chars` for integral types: an optional minus sign
(accepted only for signed types) followed by at least one decimal digit.
Returns the mathematical value of the consumed pattern and the number of
characters consumed, or `none` when no pattern is found
(`errc::invalid_argument`).  The range check happens in `parseInt`. -/
def intFromChars (signed : Bool) (s : String) : Option (Int × Nat) :=
  let cs := s.data
  let sr : Bool × List Char × Nat :=
    match cs with
    | '-' :: t => if signed then (true, t, 1) else (false, cs, 0)
    | _ => (false, cs, 0)
  let ds := (takeDigits sr.2.1).1
  if ds = [] then none
  else
    let n : Int := Int.ofNat (digitsToNat ds)
    some ((if sr.1 then -n else n), sr.2.2 + ds.length)

/-- Smallest value of the integral type. -/
def intMin (signed : Bool) (bits : Nat) : Int :=
  if signed then -(2 ^ (bits - 1) : Int) else 0

/-- Largest value of the integral type. -/
def intMax (signed : Bool) (bits : Nat) : Int :=
  if signed then (2 ^ (bits - 1) : Int) - 1 else (2 ^ bits : Int) - 1

/-- Mirrors `ValueParser<T>::parse` for an integral `T`: succeeds exactly
when `from_chars` reports no error (a pattern was found and its value is
representable) and consumed the whole token (`ptr == end`). -/
def parseInt (signed : Bool) (bits : Nat) (s : String) : Option Int :=
  match intFromChars signed s with
  | none => none
  | some p =>
    if intMin signed bits ≤ p.1 ∧ p.1 ≤ intMax signed bits ∧ p.2 = s.data.length then
      some p.1
    else none

/-- Exponent part of the floating-point grammar: `e`/`E` was already seen;
an optional sign then at least one digit.  Returns the exponent value and
the number of characters consumed including the `e` (zero when the
exponent part is malformed and hence not consumed). -/
def expPart (t : List Char) : Int × Nat :=
  let sg : Bool × List Char × Nat :=
    match t with
    | '-' :: u => (true, u, 1)
    | '+' :: u => (false, u, 1)
    | _ => (false, t, 0)
  let ds := (takeDigits sg.2.1).1
  if ds = [] then (0, 0)
  else
    ((if sg.1 then -(Int.ofNat (digitsToNat ds)) else Int.ofNat (digitsToNat ds)),
      1 + sg.2.2 + ds.length)

/-- Case-insensitive match of an input character against a lowercase
letter of a keyword (the inf/nan spellings of the floating-point grammar
are case-insensitive). -/
def charMatchesLower (c p : Char) : Bool := c = p || c.toNat + 32 = p.toNat

/-- Consumes a keyword case-insensitively at the head of the input,
returning the rest of the input, or `none` when it does not occur. -/
def takeKeyword : List Char → List Char → Option (List Char)
  | [], cs => some cs
  | _ :: _, [] => none
  | p :: ps, c :: cs => if charMatchesLower c p then takeKeyword ps cs else none

/-- A character allowed inside the parenthesized part of a nan spelling
(`nan(n-char-seq)`): letters, digits and underscore. -/
def isNanChar (c : Char) : Bool := c.isAlphanum || c = '_'

/-- Length of a well-formed `n-char-seq)` tail after `nan(`: the number
of sequence characters before the closing parenthesis, or `none` when the
closing parenthesis is missing or an invalid character occurs first. -/
def nanSeqLen : List Char → Option Nat
  | [] => none
  | c :: cs =>
    if c = ')' then some 0
    else if isNanChar c then (nanSeqLen cs).map (fun k => k + 1) else none

/-- Model of `std::from_chars` for floating point (`chars_format::general`
grammar): an optional minus sign followed by either a case-insensitive
`inf`/`infinity` spelling, a case-insensitive `nan` spelling with an
optional well-formed `(n-char-seq)` part, or decimal digits with an
optional decimal point (at least one digit overall) and an optional
well-formed exponent.  Returns the denoted value and the number of
characters consumed; `none` when no pattern is found. -/
def floatFromChars (s : String) : Option (FloatVal × Nat) :=
  let cs := s.data
  let sign : Bool × List Char × Nat :=
    match cs with
    | '-' :: t => (true, t, 1)
    | _ => (false, cs, 0)
  match takeKeyword ['i', 'n', 'f'] sign.2.1 with
  | some r1 =>
    match takeKeyword ['i', 'n', 'i', 't', 'y'] r1 with
    | some _ => some (FloatVal.inf sign.1, sign.2.2 + 8)
    | none => some (FloatVal.inf sign.1, sign.2.2 + 3)
  | none =>
  match takeKeyword ['n', 'a', 'n'] sign.2.1 with
  | some r1 =>
    match r1 with
    | '(' :: t =>
      match nanSeqLen t with
      | some k => some (FloatVal.nan, sign.2.2 + 3 + 1 + k + 1)
      | none => some (FloatVal.nan, sign.2.2 + 3)
    | _ => some (FloatVal.nan, sign.2.2 + 3)
  | none =>
    let ipr := takeDigits sign.2.1
    let fpr : List Char × List Char × Nat :=
      match ipr.2 with
      | '.' :: t =>
        let q := takeDigits t
        (q.1, q.2, q.1.length + 1)
      | r => ([], r, 0)
    if ipr.1 = [] ∧ fpr.1 = [] then none
    else
      let er : Int × Nat :=
        match fpr.2.1 with
        | 'e' :: t => expPart t
        | 'E' :: t => expPart t
        | _ => (0, 0)
      let mant : Int := Int.ofNat (digitsToNat (ipr.1 ++ fpr.1))
      some (FloatVal.finite (if sign.1 then -mant else mant)
          (er.1 - Int.ofNat fpr.1.length),
        sign.2.2 + ipr.1.length + fpr.2.2 + er.2)

/-- Significand precision of the IEEE binary floating-point type. -/
def floatPrec (bits : Nat) : Nat := if bits = 32 then 24 else 53

/-- Largest binary exponent of the IEEE binary floating-point type. -/
def floatEmax (bits : Nat) : Nat := if bits = 32 then 127 else 1023

/-- Smallest magnitude that overflows: the round-to-nearest threshold to
infinity, `2 ^ (emax + 1) - 2 ^ (emax - prec)` (ties round to even, i.e.
away to infinity, at the threshold itself). -/
def overflowThreshold (bits : Nat) : Nat :=
  2 ^ (floatEmax bits + 1) - 2 ^ (floatEmax bits - floatPrec bits)

/-- A nonzero magnitude at or below `2 ^ -(underflowExp bits)` — half the
smallest subnormal — rounds to zero (ties to even) and is out of range. -/
def underflowExp (bits : Nat) : Nat := floatEmax bits - 1 + floatPrec bits

/-- Whether the finite decimal `m * 10 ^ e` lies in the representable
range of the type: it neither reaches the overflow threshold nor (unless
zero) rounds to zero.  All comparisons are exact, on integers. -/
def floatInRange (bits : Nat) (m e : Int) : Bool :=
  let mAbs := m.natAbs
  let ov : Bool :=
    if 0 ≤ e then decide (overflowThreshold bits ≤ mAbs * 10 ^ e.toNat)
    else decide (overflowThreshold bits * 10 ^ (-e).toNat ≤ mAbs)
  let un : Bool :=
    decide (0 < mAbs) &&
      (if 0 ≤ e then decide (mAbs * 10 ^ e.toNat * 2 ^ underflowExp bits ≤ 1)
       else decide (mAbs * 2 ^ underflowExp bits ≤ 10 ^ (-e).toNat))
  !ov && !un

/-- Whether `from_chars` reports `errc{}` for the parsed value: a finite
decimal must be in the type's range (`result_out_of_range` otherwise);
the infinity and nan spellings always succeed. -/
def representable (bits : Nat) : FloatVal → Bool
  | FloatVal.finite m e => floatInRange bits m e
  | _ => true

/-- Mirrors `ValueParser<T>::parse` for floating point `T`: succeeds
exactly when `from_chars` reports no error (`ec == errc{}`: a pattern was
found and its value is representable) and consumed the whole token
(`ptr == end`). -/
def parseFloat (bits : Nat) (s : String) : Option FloatVal :=
  match floatFromChars s with
  | none => none
  | some p =>
    if representable bits p.1 = true ∧ p.2 = s.data.length then some p.1 else none

end ValueParser

/-- Mirrors `ValueParser<T>::parse` over the closed type universe
(`T = detail::unwrap_optional_t` of the declared field type). -/
def ValueParser.parse (ty : FieldTy) (input : String) : Option Value :=
  match ty with
  | FieldTy.bool => (ValueParser.parseBool input).map Value.bool
  | FieldTy.string => some (Value.str input)
  | FieldTy.int sg b => (ValueParser.parseInt sg b input).map Value.int
  | FieldTy.float b => (ValueParser.parseFloat b input).map Value.float

/-- Splits a character list at the first `=` (mirrors `arg.find('=')` with
the two `substr` calls): `some (before, after)` when a `=` exists, `none`
otherwise. -/
def splitEqAux : List Char → Option (List Char × List Char)
  | [] => none
  | c :: cs =>
    if c = '=' then some ([], cs)
    else
      match splitEqAux cs with
      | some p => some (c :: p.1, p.2)
      | none => none

/-- The `--option=value` split at the head of `tryParseOption`: the option
name (part before the first `=`, or the whole token) and the optional
inline value (part after the first `=`). -/
def splitEq (arg : String) : String × Option String :=
  match splitEqAux arg.data with
  | some p => (p.1.asString, some (p.2.asString))
  | none => (arg, none)

/-- Body of the matching branch of `tryParseOption` for the first option
whose name matches: boolean fields take an inline value or default to
`true`; other fields take the inline value or consume the next token
(the returned `Bool` reports that consumption, i.e. the `++index` in the
source).  Error results leave the record untouched. -/
def handleOption (argv : List String) (arg optName : String) (inl : Option String)
    (o : OptionSpec) (i : Nat) (r : Record) : ParseResult × Bool × Record :=
  if o.ty = FieldTy.bool then
    match inl with
    | some v =>
      match ValueParser.parseBool v with
      | none => (ParseResult.failure ParseError.InvalidValue arg, false, r)
      | some b => (ParseResult.success, false, setField r o.field (Value.bool b))
    | none => (ParseResult.success, false, setField r o.field (Value.bool true))
  else
    match inl with
    | some v =>
      match ValueParser.parse o.ty v with
      | none => (ParseResult.failure ParseError.InvalidValue arg, false, r)
      | some val => (ParseResult.success, false, setField r o.field val)
    | none =>
      if i + 1 < argv.length then
        match ValueParser.parse o.ty (argv.getD (i + 1) "") with
        | none => (ParseResult.failure ParseError.InvalidValue arg, true, r)
        | some val => (ParseResult.success, true, setField r o.field val)
      else (ParseResult.failure ParseError.MissingValue optName, false, r)

/-- The `forEachOptionUntil` fold of `tryParseOption`: walks the
declaration list in order, handles the first matching option and stops;
when nothing matches the initial `UnknownOption` result survives. -/
def optionLoop (argv : List String) (arg optName : String) (inl : Option String)
    (i : Nat) (r : Record) : List Decl → ParseResult × Bool × Record
  | [] => (ParseResult.failure ParseError.UnknownOption optName, false, r)
  | Decl.option o :: ds =>
    if o.matches optName then handleOption argv arg optName inl o i r
    else optionLoop argv arg optName inl i r ds
  | _ :: ds => optionLoop argv arg optName inl i r ds

/-- Mirrors `ArgParser::tryParseOption`. -/
def tryParseOption (decls : List Decl) (argv : List String) (arg : String)
    (i : Nat) (r : Record) : ParseResult × Bool × Record :=
  let p := splitEq arg
  optionLoop argv arg p.1 p.2 i r decls

/-- The `forEachArgIndexed` fold of `tryParsePositional`: the positional
declaration at running index `target` coerces the token; without such a
declaration the initial `TooManyArgs` result survives. -/
def positionalLoop (value : String) (target : Nat) (r : Record) :
    List Decl → Nat → ParseResult × Record
  | [], _ => (ParseResult.failure ParseError.TooManyArgs value, r)
  | Decl.arg a :: ds, idx =>
    if idx = target then
      match ValueParser.parse a.ty value with
      | none => (ParseResult.failure ParseError.InvalidValue value, r)
      | some v => (ParseResult.success, setField r a.field v)
    else positionalLoop value target r ds (idx + 1)
  | _ :: ds, idx => positionalLoop value target r ds idx

/-- Mirrors `ArgParser::tryParsePositional`. -/
def tryParsePositional (decls : List Decl) (value : String) (target : Nat)
    (r : Record) : ParseResult × Record :=
  positionalLoop value target r decls 0

/-- Mirrors `ArgParser::setVarArgs`: assigns the argument suffix starting
at `startIndex` to the variadic field (`varArgsIndex()` resolves to the
last variadic declaration); a no-op when no variadic slot is declared. -/
def setVarArgs (decls : List Decl) (argv : List String) (startIndex : Nat)
    (r : Record) : Record :=
  match (varArgsFields decls).getLast? with
  | some f => setField r f (Value.span (argv.drop startIndex))
  | none => r

/-- The `forEachArgIndexed` fold of `checkRequired`: the name of the first
non-optional positional whose index was not reached by the fill count
(the loop breaks there), or `""` when the fold finds none. -/
def requiredLoop (count : Nat) : List Decl → Nat → String
  | [], _ => ""
  | Decl.arg a :: ds, idx =>
    if a.isOptional = false ∧ count ≤ idx then a.name
    else requiredLoop count ds (idx + 1)
  | _ :: ds, idx => requiredLoop count ds idx

/-- Mirrors `ArgParser::checkRequired`: failure with the recorded name
when it is nonempty, success otherwise. -/
def checkRequired (decls : List Decl) (count : Nat) : ParseResult :=
  let missing := requiredLoop count decls 0
  if missing = "" then ParseResult.success
  else ParseResult.failure ParseError.MissingRequiredArg missing

/-- Outcome of the scanning loop of `ArgParser::parse`: an early error
return, or loop exit with the positional fill count, the variadic start
index (`varArgsStart`, `none` for the source's `-1`), and the record. -/
inductive ScanOut : Type
  | err (res : ParseResult) (r : Record)
  | done (count : Nat) (varStart : Option Nat) (r : Record)
  deriving DecidableEq, Repr

/-- The record accumulated by a scan outcome. -/
def ScanOut.record : ScanOut → Record
  | ScanOut.err _ r => r
  | ScanOut.done _ _ r => r

/-- The `for` loop of `ArgParser::parse`, from token index `i` with the
running positional fill `count`.  The fuel argument only bounds the number
of iterations; `parse` passes `argv.length`, which is sufficient because
`i` strictly increases. -/
def scanLoop (decls : List Decl) (argv : List String) :
    Nat → Nat → Nat → Record → ScanOut
  | 0, _, count, r => ScanOut.done count none r
  | fuel + 1, i, count, r =>
    if i < argv.length then
      let arg := argv.getD i ""
      if arg = "--" then
        ScanOut.done count (if i + 1 < argv.length then some (i + 1) else none) r
      else if startsWithDash arg then
        let p := tryParseOption decls argv arg i r
        if p.1.isOk then
          scanLoop decls argv fuel ((if p.2.1 then i + 1 else i) + 1) count p.2.2
        else ScanOut.err p.1 p.2.2
      else
        let p := tryParsePositional decls arg count r
        if p.1.isOk then scanLoop decls argv fuel (i + 1) (count + 1) p.2
        else if p.1.error = ParseError.TooManyArgs then
          if hasVarArgs decls then ScanOut.done count (some i) p.2
          else ScanOut.err p.1 p.2
        else ScanOut.err p.1 p.2
    else ScanOut.done count none r

/-- Mirrors `ArgParser::parse`: scan from token index 1, then apply the
variadic suffix when the scan recorded a start index, then run the
required-argument check on the fill count. -/
def parse (decls : List Decl) (argv : List String) : ParseResult × Record :=
  match scanLoop decls argv argv.length 1 0 [] with
  | ScanOut.err res r => (res, r)
  | ScanOut.done count varStart r =>
    let r' := match varStart with
      | some s => setVarArgs decls argv s r
      | none => r
    (checkRequired decls count, r')

/-- Specification-side description of option lookup: the first declared
option, in declaration order, whose primary or alternate name matches. -/
def firstMatchingOption (decls : List Decl) (optName : String) : Option OptionSpec :=
  (options decls).find? (fun o => o.matches optName)

/-- Specification-side description of the required-argument check: the
first positional slot, in declaration order, that is not optional-wrapped
and whose index was not reached by the fill count. -/
def firstUnmetAux (count : Nat) : List ArgSpec → Nat → Option String
  | [], _ => none
  | a :: as, idx =>
    if a.isOptional = false ∧ count ≤ idx then some a.name
    else firstUnmetAux count as (idx + 1)

/-- The name of the first unmet required positional slot, if any. -/
def firstUnmetRequired (decls : List Decl) (count : Nat) : Option String :=
  firstUnmetAux count (positionals decls) 0

/-- Characters of the string built from a character list. -/
theorem asString_data (l : List Char) : (List.asString l).data = l := rfl

/-- When `splitEqAux` finds no split, the list has no `=`. -/
theorem splitEqAux_eq_none {cs : List Char} (h : splitEqAux cs = none) : '=' ∉ cs := by
  induction cs with
  | nil => simp
  | cons c cs ih =>
    by_cases hc : c = '='
    · simp [splitEqAux, hc] at h
    · simp only [splitEqAux, if_neg hc] at h
      cases hcs : splitEqAux cs with
      | some p => rw [hcs] at h; simp at h
      | none =>
        intro hm
        rcases List.mem_cons.mp hm with h1 | h1
        · exact hc h1.symm
        · exact ih hcs h1

/-- When `splitEqAux` splits, it splits at the first `=`. -/
theorem splitEqAux_eq_some {cs pre val : List Char}
    (h : splitEqAux cs = some (pre, val)) :
    cs = pre ++ '=' :: val ∧ '=' ∉ pre := by
  induction cs generalizing pre with
  | nil => simp [splitEqAux] at h
  | cons c cs ih =>
    by_cases hc : c = '='
    · simp only [splitEqAux, if_pos hc] at h
      simp only [Option.some.injEq, Prod.mk.injEq] at h
      obtain ⟨h1, h2⟩ := h
      subst h1; subst h2; subst hc
      exact ⟨rfl, by simp⟩
    · simp only [splitEqAux, if_neg hc] at h
      cases hcs : splitEqAux cs with
      | none => rw [hcs] at h; simp at h
      | some p =>
        obtain ⟨p1, p2⟩ := p
        rw [hcs] at h
        simp only [Option.some.injEq, Prod.mk.injEq] at h
        obtain ⟨h1, h2⟩ := h
        subst h2
        subst h1
        obtain ⟨hcs1, hcs2⟩ := ih hcs
        constructor
        · simp [hcs1]
        · intro hm
          rcases List.mem_cons.mp hm with h3 | h3
          · exact hc h3.symm
          · exact hcs2 h3

/-- The option fold visits declared options in order and handles exactly
the first match; with no match the `UnknownOption` default survives. -/
theorem optionLoop_eq_find (argv : List String) (arg optName : String)
    (inl : Option String) (i : Nat) (r : Record) (ds : List Decl) :
    optionLoop argv arg optName inl i r ds =
      match (options ds).find? (fun o => o.matches optName) with
      | some o => handleOption argv arg optName inl o i r
      | none => (ParseResult.failure ParseError.UnknownOption optName, false, r) := by
  induction ds with
  | nil => rfl
  | cons d ds ih =>
    cases d with
    | option o =>
      cases h : o.matches optName with
      | true => simp [optionLoop, options, List.find?, h]
      | false => simp [optionLoop, options, List.find?, h, ih]
    | arg a => simpa [optionLoop, options] using ih
    | varargs f => simpa [optionLoop, options] using ih

/-- Past the last declared positional slot the positional fold leaves the
initial `TooManyArgs` result and the record untouched. -/
theorem positionalLoop_overflow (value : String) (target : Nat) (r : Record)
    (ds : List Decl) (idx : Nat) (h : (positionals ds).length + idx ≤ target) :
    positionalLoop value target r ds idx =
      (ParseResult.failure ParseError.TooManyArgs value, r) := by
  induction ds generalizing idx with
  | nil => rfl
  | cons d ds ih =>
    cases d with
    | arg a =>
      simp only [positionals, List.length_cons] at h
      have hne : ¬ idx = target := by omega
      simp only [positionalLoop, if_neg hne]
      exact ih (idx + 1) (by omega)
    | option o =>
      simp only [positionals] at h
      exact ih idx h
    | varargs f =>
      simp only [positionals] at h
      exact ih idx h

/-- The required-argument fold computes the first unmet required slot (the
empty string standing for "none found"). -/
theorem requiredLoop_eq_firstUnmet (count : Nat) (ds : List Decl) (idx : Nat) :
    requiredLoop count ds idx = (firstUnmetAux count (positionals ds) idx).getD "" := by
  induction ds generalizing idx with
  | nil => rfl
  | cons d ds ih =>
    cases d with
    | arg a =>
      by_cases h : a.isOptional = false ∧ count ≤ idx
      · simp [requiredLoop, firstUnmetAux, positionals, h]
      · simp [requiredLoop, firstUnmetAux, positionals, h, ih]
    | option o => simpa [requiredLoop, positionals] using ih idx
    | varargs f => simpa [requiredLoop, positionals] using ih idx

/-- A slot name returned by `firstUnmetAux` names a declared slot. -/
theorem firstUnmetAux_mem {count : Nat} {as : List ArgSpec} {idx : Nat} {nm : String}
    (h : firstUnmetAux count as idx = some nm) : ∃ a ∈ as, a.name = nm := by
  induction as generalizing idx with
  | nil => simp [firstUnmetAux] at h
  | cons a as ih =>
    by_cases hc : a.isOptional = false ∧ count ≤ idx
    · simp only [firstUnmetAux, if_pos hc, Option.some.injEq] at h
      exact ⟨a, by simp, h⟩
    · simp only [firstUnmetAux, if_neg hc] at h
      obtain ⟨b, hb, hbn⟩ := ih h
      exact ⟨b, by simp [hb], hbn⟩

/-- A variadic declaration exists exactly when some variadic field was
collected. -/
theorem hasVarArgs_iff_fields (ds : List Decl) :
    hasVarArgs ds = true ↔ varArgsFields ds ≠ [] := by
  induction ds with
  | nil => simp [hasVarArgs, varArgsFields]
  | cons d ds ih =>
    cases d with
    | option o => simpa [hasVarArgs, varArgsFields] using ih
    | arg a => simpa [hasVarArgs, varArgsFields] using ih
    | varargs f => simp [hasVarArgs, varArgsFields]

/-- A nonempty list has a last element. -/
theorem getLast?_isSome_of_ne_nil {α : Type} {l : List α} (h : l ≠ []) :
    ∃ x, l.getLast? = some x := by
  induction l with
  | nil => exact absurd rfl h
  | cons a l ih =>
    cases l with
    | nil => exact ⟨a, rfl⟩
    | cons b l =>
      obtain ⟨x, hx⟩ := ih (by simp)
      exact ⟨x, by rw [List.getLast?_cons_cons]; exact hx⟩

/-- Without a variadic declaration `setVarArgs` is the identity. -/
theorem setVarArgs_of_no_varargs {ds : List Decl} (h : hasVarArgs ds = false)
    (argv : List String) (s : Nat) (r : Record) : setVarArgs ds argv s r = r := by
  have hf : varArgsFields ds = [] := by
    by_contra hne
    rw [(hasVarArgs_iff_fields ds).mpr hne] at h
    exact Bool.true_eq_false ▸ h ▸ rfl
  simp [setVarArgs, hf]

/-- Reading a field right after writing it returns the written value. -/
theorem getField_setField (r : Record) (f : Nat) (v : Value) :
    getField (setField r f v) f = some v := by
  simp [getField, setField, List.find?]

/-- Handling a matched option only ever prepends to the record. -/
theorem handleOption_record (argv : List String) (arg optName : String)
    (inl : Option String) (o : OptionSpec) (i : Nat) (r : Record) :
    ∃ d, (handleOption argv arg optName inl o i r).2.2 = d ++ r := by
  unfold handleOption
  by_cases hty : o.ty = FieldTy.bool
  · rw [if_pos hty]
    cases inl with
    | none => exact ⟨[(o.field, Value.bool true)], rfl⟩
    | some v =>
      cases hpb : ValueParser.parseBool v with
      | none => exact ⟨[], by simp [hpb]⟩
      | some b => exact ⟨[(o.field, Value.bool b)], by simp [hpb, setField]⟩
  · rw [if_neg hty]
    cases inl with
    | some v =>
      cases hp : ValueParser.parse o.ty v with
      | none => exact ⟨[], by simp [hp]⟩
      | some val => exact ⟨[(o.field, val)], by simp [hp, setField]⟩
    | none =>
      by_cases hn : i + 1 < argv.length
      · rw [if_pos hn]
        cases hp : ValueParser.parse o.ty (argv.getD (i + 1) "") with
        | none => exact ⟨[], by simp [hp]⟩
        | some val => exact ⟨[(o.field, val)], by simp [hp, setField]⟩
      · rw [if_neg hn]; exact ⟨[], rfl⟩

/-- The option fold only ever prepends to the record. -/
theorem optionLoop_record (argv : List String) (arg optName : String)
    (inl : Option String) (i : Nat) (r : Record) (ds : List Decl) :
    ∃ d, (optionLoop argv arg optName inl i r ds).2.2 = d ++ r := by
  induction ds with
  | nil => exact ⟨[], rfl⟩
  | cons d ds ih =>
    cases d with
    | option o =>
      cases h : o.matches optName with
      | true =>
        simp only [optionLoop, h, if_true]
        exact handleOption_record argv arg optName inl o i r
      | false => simpa only [optionLoop, h, if_false] using ih
    | arg a => simpa only [optionLoop] using ih
    | varargs f => simpa only [optionLoop] using ih

/-- `tryParseOption` only ever prepends to the record. -/
theorem tryParseOption_record (decls : List Decl) (argv : List String)
    (arg : String) (i : Nat) (r : Record) :
    ∃ d, (tryParseOption decls argv arg i r).2.2 = d ++ r :=
  optionLoop_record argv arg (splitEq arg).1 (splitEq arg).2 i r decls

/-- The positional fold only ever prepends to the record. -/
theorem positionalLoop_record (value : String) (target : Nat) (r : Record)
    (ds : List Decl) (idx : Nat) :
    ∃ d, (positionalLoop value target r ds idx).2 = d ++ r := by
  induction ds generalizing idx with
  | nil => exact ⟨[], rfl⟩
  | cons d ds ih =>
    cases d with
    | arg a =>
      by_cases h : idx = target
      · simp only [positionalLoop, if_pos h]
        cases hp : ValueParser.parse a.ty value with
        | none => exact ⟨[], by simp [hp]⟩
        | some v => exact ⟨[(a.field, v)], by simp [hp, setField]⟩
      · simp only [positionalLoop, if_neg h]
        exact ih (idx + 1)
    | option o => simpa only [positionalLoop] using ih idx
    | varargs f => simpa only [positionalLoop] using ih idx

/-- `tryParsePositional` only ever prepends to the record. -/
theorem tryParsePositional_record (decls : List Decl) (value : String)
    (target : Nat) (r : Record) :
    ∃ d, (tryParsePositional decls value target r).2 = d ++ r :=
  positionalLoop_record value target r decls 0

/-- The scanning loop only ever prepends to the record: writes performed
before an error survive it, and nothing is rolled back. -/
theorem scanLoop_record (decls : List Decl) (argv : List String) :
    ∀ (fuel i count : Nat) (r : Record),
      ∃ d, (scanLoop decls argv fuel i count r).record = d ++ r := by
  intro fuel
  induction fuel with
  | zero => intro i count r; exact ⟨[], rfl⟩
  | succ fuel ih =>
    intro i count r
    by_cases hi : i < argv.length
    · simp only [scanLoop, if_pos hi]
      by_cases hsep : argv.getD i "" = "--"
      · simp only [if_pos hsep]; exact ⟨[], rfl⟩
      · simp only [if_neg hsep]
        by_cases hdash : startsWithDash (argv.getD i "") = true
        · simp only [if_pos hdash]
          obtain ⟨d0, hd0⟩ := tryParseOption_record decls argv (argv.getD i "") i r
          by_cases hok : (tryParseOption decls argv (argv.getD i "") i r).1.isOk = true
          · simp only [if_pos hok]
            obtain ⟨d1, hd1⟩ :=
              ih ((if (tryParseOption decls argv (argv.getD i "") i r).2.1 then i + 1 else i) + 1)
                count (tryParseOption decls argv (argv.getD i "") i r).2.2
            exact ⟨d1 ++ d0, by rw [hd1, hd0, List.append_assoc]⟩
          · simp only [if_neg hok]
            exact ⟨d0, hd0⟩
        · simp only [if_neg hdash]
          obtain ⟨d0, hd0⟩ := tryParsePositional_record decls (argv.getD i "") count r
          by_cases hok : (tryParsePositional decls (argv.getD i "") count r).1.isOk = true
          · simp only [if_pos hok]
            obtain ⟨d1, hd1⟩ :=
              ih (i + 1) (count + 1) (tryParsePositional decls (argv.getD i "") count r).2
            exact ⟨d1 ++ d0, by rw [hd1, hd0, List.append_assoc]⟩
          · simp only [if_neg hok]
            by_cases htm :
                (tryParsePositional decls (argv.getD i "") count r).1.error = ParseError.TooManyArgs
            · simp only [if_pos htm]
              by_cases hvw : hasVarArgs decls = true
              · simp only [if_pos hvw]; exact ⟨d0, hd0⟩
              · simp only [if_neg hvw]; exact ⟨d0, hd0⟩
            · simp only [if_neg htm]; exact ⟨d0, hd0⟩
    · simp only [scanLoop, if_neg hi]; exact ⟨[], rfl⟩

/-- Integral coercion succeeds exactly when the whole token is consumed by
the integer grammar and the value is representable in the type. -/
theorem parseInt_isSome_iff (sg : Bool) (b : Nat) (s : String) :
    (ValueParser.parseInt sg b s).isSome = true ↔
      ∃ v, ValueParser.intFromChars sg s = some (v, s.data.length) ∧
        ValueParser.intMin sg b ≤ v ∧ v ≤ ValueParser.intMax sg b := by
  unfold ValueParser.parseInt
  cases h : ValueParser.intFromChars sg s with
  | none => simp
  | some p =>
    obtain ⟨v0, n0⟩ := p
    by_cases hc : ValueParser.intMin sg b ≤ v0 ∧ v0 ≤ ValueParser.intMax sg b ∧
        n0 = s.data.length
    · simp only [if_pos hc, Option.isSome_some, true_iff]
      exact ⟨v0, by rw [hc.2.2], hc.1, hc.2.1⟩
    · simp only [if_neg hc, Option.isSome_none, Bool.false_eq_true, false_iff]
      rintro ⟨v, heq, h1, h2⟩
      simp only [Option.some.injEq, Prod.mk.injEq] at heq
      exact hc ⟨heq.1 ▸ h1, heq.1 ▸ h2, heq.2⟩

/-- Floating-point coercion succeeds exactly when the whole token is
consumed by the floating-point grammar and the denoted value is
representable in the type. -/
theorem parseFloat_isSome_iff (bits : Nat) (s : String) :
    (ValueParser.parseFloat bits s).isSome = true ↔
      ∃ v, ValueParser.floatFromChars s = some (v, s.data.length) ∧
        ValueParser.representable bits v = true := by
  unfold ValueParser.parseFloat
  cases h : ValueParser.floatFromChars s with
  | none => simp
  | some p =>
    obtain ⟨v0, n0⟩ := p
    by_cases hc : ValueParser.representable bits v0 = true ∧ n0 = s.data.length
    · simp only [if_pos hc, Option.isSome_some, true_iff]
      exact ⟨v0, by rw [hc.2], hc.1⟩
    · simp only [if_neg hc, Option.isSome_none, Bool.false_eq_true, false_iff]
      rintro ⟨v, heq, hrep⟩
      simp only [Option.some.injEq, Prod.mk.injEq] at heq
      exact hc ⟨heq.1 ▸ hrep, heq.2⟩

/-- C7: for every token, boolean coercion succeeds with `true` exactly when
the token is a case-sensitive member of {"true","1","yes","on","y"},
succeeds with `false` exactly when it is a case-sensitive member of
{"false","0","no","off","n"}, and fails on any other token. -/
theorem bool_coercion_spellings (s : String) :
    (ValueParser.parseBool s = some true ↔
      (s = "true" ∨ s = "1" ∨ s = "yes" ∨ s = "on" ∨ s = "y"))
    ∧ (ValueParser.parseBool s = some false ↔
      (s = "false" ∨ s = "0" ∨ s = "no" ∨ s = "off" ∨ s = "n"))
    ∧ (ValueParser.parseBool s = none ↔
      ¬((s = "true" ∨ s = "1" ∨ s = "yes" ∨ s = "on" ∨ s = "y") ∨
        (s = "false" ∨ s = "0" ∨ s = "no" ∨ s = "off" ∨ s = "n"))) := by
  unfold ValueParser.parseBool
  split_ifs with h1 h2
  · rcases h1 with h | h | h | h | h <;> subst h <;> exact ⟨by decide, by decide, by decide⟩
  · rcases h2 with h | h | h | h | h <;> subst h <;>
      exact ⟨by simp_all, by decide, by simp_all⟩
  · exact ⟨iff_of_false (by simp) h1, iff_of_false (by simp) h2,
      iff_of_true rfl (fun h => h.elim h1 h2)⟩

/-- C7 witness: the theorem instantiated at the token "yes". -/
theorem bool_coercion_spellings_witness :
    (ValueParser.parseBool "yes" = some true ↔
      ("yes" = "true" ∨ "yes" = "1" ∨ "yes" = "yes" ∨ "yes" = "on" ∨ "yes" = "y"))
    ∧ (ValueParser.parseBool "yes" = some false ↔
      ("yes" = "false" ∨ "yes" = "0" ∨ "yes" = "no" ∨ "yes" = "off" ∨ "yes" = "n"))
    ∧ (ValueParser.parseBool "yes" = none ↔
      ¬(("yes" = "true" ∨ "yes" = "1" ∨ "yes" = "yes" ∨ "yes" = "on" ∨ "yes" = "y") ∨
        ("yes" = "false" ∨ "yes" = "0" ∨ "yes" = "no" ∨ "yes" = "off" ∨ "yes" = "n"))) :=
  bool_coercion_spellings "yes"

/-- C3 counterexample: the token "9999999999" is entirely consumed by the
locale-independent integer grammar (the `from_chars` pattern), yet numeric
coercion at the 32-bit signed integer type fails because the value is not
representable; hence coercion success is not equivalent to full grammar
consumption, and this listed token does not succeed at that type. -/
theorem numeric_coercion_overflow_cex :
    ValueParser.intFromChars true "9999999999" =
      some (9999999999, "9999999999".data.length)
    ∧ ValueParser.parse (FieldTy.int true 32) "9999999999" = none :=
  ⟨by decide, by decide⟩

set_option exponentiation.threshold 1200 in
set_option maxRecDepth 8000 in
/-- C3 (amended): numeric coercion (integer or floating point) succeeds
iff the entire token is consumed by the locale-independent numeric grammar
and the consumed value is representable in the target type (for floating
point the infinity and nan spellings always are, a finite decimal iff it
neither overflows nor underflows the type's range); the empty token always
fails; "-50" succeeds, "9999999999" succeeds at a 64-bit integer type (the
test suite's `long`), "3.14" succeeds at both floating-point types with
the exact decimal value 314 * 10 ^ -2, while "12abc" and "" fail; "1e999"
fails at both floating-point types, "1e100" fails at 32-bit `float` but
succeeds at 64-bit `double`, and "inf" succeeds. -/
theorem numeric_coercion_full_consumption :
    (∀ (sg : Bool) (b : Nat) (s : String),
      (ValueParser.parseInt sg b s).isSome = true ↔
        ∃ v, ValueParser.intFromChars sg s = some (v, s.data.length) ∧
          ValueParser.intMin sg b ≤ v ∧ v ≤ ValueParser.intMax sg b)
    ∧ (∀ (b : Nat) (s : String),
      (ValueParser.parseFloat b s).isSome = true ↔
        ∃ v, ValueParser.floatFromChars s = some (v, s.data.length) ∧
          ValueParser.representable b v = true)
    ∧ (∀ (sg : Bool) (b : Nat), ValueParser.parse (FieldTy.int sg b) "" = none)
    ∧ (∀ b : Nat, ValueParser.parse (FieldTy.float b) "" = none)
    ∧ ValueParser.parse (FieldTy.int true 32) "-50" = some (Value.int (-50))
    ∧ ValueParser.parse (FieldTy.int true 64) "9999999999" =
        some (Value.int 9999999999)
    ∧ ValueParser.parse (FieldTy.float 32) "3.14" =
        some (Value.float (FloatVal.finite 314 (-2)))
    ∧ ValueParser.parse (FieldTy.float 64) "3.14" =
        some (Value.float (FloatVal.finite 314 (-2)))
    ∧ ValueParser.parse (FieldTy.int true 32) "12abc" = none
    ∧ ValueParser.parse (FieldTy.float 64) "12abc" = none
    ∧ ValueParser.parse (FieldTy.float 64) "1e999" = none
    ∧ ValueParser.parse (FieldTy.float 32) "1e100" = none
    ∧ ValueParser.parse (FieldTy.float 64) "1e100" =
        some (Value.float (FloatVal.finite 1 100))
    ∧ ValueParser.parse (FieldTy.float 64) "inf" =
        some (Value.float (FloatVal.inf false)) :=
  ⟨parseInt_isSome_iff, parseFloat_isSome_iff, fun _ _ => rfl, fun _ => rfl,
    by decide, by decide, by decide, by decide, by decide, by decide,
    by decide, by decide, by decide, by decide⟩

/-- C4: for every dash-prefixed token, option handling splits the token at
the first `=` into an option name and an optional inline value, searches
the declared options in declaration order for the first whose primary or
alternate name matches exactly (first match wins: handling a match is the
same as handling it as the only declaration), and with no match returns
`UnknownOption` with context equal to the option name. -/
theorem option_token_lookup (decls : List Decl) (argv : List String)
    (arg : String) (i : Nat) (r : Record) :
    (match (splitEq arg).2 with
      | none => (splitEq arg).1 = arg ∧ '=' ∉ arg.data
      | some v => arg.data = (splitEq arg).1.data ++ '=' :: v.data ∧
          '=' ∉ (splitEq arg).1.data)
    ∧ (firstMatchingOption decls (splitEq arg).1 = none →
        tryParseOption decls argv arg i r =
          (ParseResult.failure ParseError.UnknownOption (splitEq arg).1, false, r))
    ∧ (∀ o, firstMatchingOption decls (splitEq arg).1 = some o →
        tryParseOption decls argv arg i r =
          tryParseOption [Decl.option o] argv arg i r) := by
  refine ⟨?_, ?_, ?_⟩
  · unfold splitEq
    cases h : splitEqAux arg.data with
    | none => exact ⟨rfl, splitEqAux_eq_none h⟩
    | some p =>
      obtain ⟨pre, val⟩ := p
      obtain ⟨h1, h2⟩ := splitEqAux_eq_some h
      exact ⟨by rw [asString_data, asString_data]; exact h1, by rw [asString_data]; exact h2⟩
  · intro h
    unfold tryParseOption
    rw [optionLoop_eq_find]
    unfold firstMatchingOption at h
    rw [h]
  · intro o h
    unfold tryParseOption
    rw [optionLoop_eq_find, optionLoop_eq_find]
    unfold firstMatchingOption at h
    rw [h]
    have : options [Decl.option o] = [o] := rfl
    rw [this]
    have hm : o.matches (splitEq arg).1 = true := by
      have := List.find?_some h
      simpa using this
    simp [List.find?, hm]

/-- C4 witness: lookup of the unknown token "--bad" and first-match
handling of "-a" against a concrete declaration list. -/
theorem option_token_lookup_witness :
    tryParseOption [Decl.option ⟨"-a", "--flag1", FieldTy.bool, 0⟩]
        ["prog", "--bad"] "--bad" 1 [] =
      (ParseResult.failure ParseError.UnknownOption "--bad", false, [])
    ∧ tryParseOption
        [Decl.arg ⟨"x", FieldTy.string, false, 5⟩,
          Decl.option ⟨"-a", "--flag1", FieldTy.bool, 0⟩]
        ["prog", "-a"] "-a" 1 [] =
      tryParseOption [Decl.option ⟨"-a", "--flag1", FieldTy.bool, 0⟩]
        ["prog", "-a"] "-a" 1 [] :=
  ⟨(option_token_lookup [Decl.option ⟨"-a", "--flag1", FieldTy.bool, 0⟩]
      ["prog", "--bad"] "--bad" 1 []).2.1 (by decide),
    (option_token_lookup
      [Decl.arg ⟨"x", FieldTy.string, false, 5⟩,
        Decl.option ⟨"-a", "--flag1", FieldTy.bool, 0⟩]
      ["prog", "-a"] "-a" 1 []).2.2 ⟨"-a", "--flag1", FieldTy.bool, 0⟩ (by decide)⟩

/-- C5: for a matched option bound to a non-boolean field, the value is
the inline value if present, otherwise the next token in the stream
(reported as consumed); with neither available the outcome is
`MissingValue` with context the option name; failed coercion yields
`InvalidValue` with context the full original token; success assigns the
coerced value.  A consumed next token is never reconsidered: the scan
resumes two positions further. -/
theorem matched_option_value_semantics :
    (∀ (decls : List Decl) (argv : List String) (arg optName : String)
        (inl : Option String) (o : OptionSpec) (i : Nat) (r : Record),
      splitEq arg = (optName, inl) →
      firstMatchingOption decls optName = some o →
      o.ty ≠ FieldTy.bool →
      tryParseOption decls argv arg i r =
        match inl with
        | some v =>
          match ValueParser.parse o.ty v with
          | none => (ParseResult.failure ParseError.InvalidValue arg, false, r)
          | some val => (ParseResult.success, false, setField r o.field val)
        | none =>
          if i + 1 < argv.length then
            match ValueParser.parse o.ty (argv.getD (i + 1) "") with
            | none => (ParseResult.failure ParseError.InvalidValue arg, true, r)
            | some val => (ParseResult.success, true, setField r o.field val)
          else (ParseResult.failure ParseError.MissingValue optName, false, r))
    ∧ (∀ (decls : List Decl) (argv : List String) (fuel i count : Nat)
        (r : Record) (res : ParseResult) (r' : Record),
      i < argv.length →
      argv.getD i "" ≠ "--" →
      startsWithDash (argv.getD i "") = true →
      tryParseOption decls argv (argv.getD i "") i r = (res, true, r') →
      res.isOk = true →
      scanLoop decls argv (fuel + 1) i count r =
        scanLoop decls argv fuel (i + 1 + 1) count r') := by
  constructor
  · intro decls argv arg optName inl o i r hsplit hmatch hty
    have hfind : (options decls).find? (fun q => q.matches optName) = some o := hmatch
    calc tryParseOption decls argv arg i r
        = optionLoop argv arg optName inl i r decls := by
          simp only [tryParseOption, hsplit]
      _ = handleOption argv arg optName inl o i r := by
          rw [optionLoop_eq_find, hfind]
      _ = _ := by
          unfold handleOption
          rw [if_neg hty]
  · intro decls argv fuel i count r res r' hi hsep hdash htp hok
    simp only [scanLoop, if_pos hi, if_neg hsep, if_pos hdash]
    rw [htp]
    simp [hok]

/-- C5 witness: a concrete int option taking its value from the next
token, and the scan resuming two positions further. -/
theorem matched_option_value_semantics_witness :
    tryParseOption [Decl.option ⟨"-c", "--count", FieldTy.int true 32, 1⟩]
        ["prog", "-c", "5"] "-c" 1 [] =
      (ParseResult.success, true, [(1, Value.int 5)])
    ∧ scanLoop [Decl.option ⟨"-c", "--count", FieldTy.int true 32, 1⟩]
        ["prog", "-c", "5"] (0 + 1) 1 0 [] =
      scanLoop [Decl.option ⟨"-c", "--count", FieldTy.int true 32, 1⟩]
        ["prog", "-c", "5"] 0 (1 + 1 + 1) 0 [(1, Value.int 5)] :=
  ⟨(matched_option_value_semantics.1
      [Decl.option ⟨"-c", "--count", FieldTy.int true 32, 1⟩]
      ["prog", "-c", "5"] "-c" "-c" none ⟨"-c", "--count", FieldTy.int true 32, 1⟩
      1 [] (by decide) (by decide) (by decide)).trans (by decide),
    matched_option_value_semantics.2
      [Decl.option ⟨"-c", "--count", FieldTy.int true 32, 1⟩]
      ["prog", "-c", "5"] 0 1 0 [] ParseResult.success [(1, Value.int 5)]
      (by decide) (by decide) (by decide) (by decide) (by decide)⟩

/-- C6: for a matched option bound to a boolean field, an inline value is
coerced as boolean (failure yields `InvalidValue` with context the full
original token, success assigns the coerced value); with no inline value
the field is unconditionally assigned `true`, overwriting any previous
value. -/
theorem matched_bool_flag_semantics :
    (∀ (decls : List Decl) (argv : List String) (arg optName : String)
        (inl : Option String) (o : OptionSpec) (i : Nat) (r : Record),
      splitEq arg = (optName, inl) →
      firstMatchingOption decls optName = some o →
      o.ty = FieldTy.bool →
      tryParseOption decls argv arg i r =
        match inl with
        | some v =>
          match ValueParser.parseBool v with
          | none => (ParseResult.failure ParseError.InvalidValue arg, false, r)
          | some b => (ParseResult.success, false, setField r o.field (Value.bool b))
        | none => (ParseResult.success, false, setField r o.field (Value.bool true)))
    ∧ (∀ (r : Record) (f : Nat) (v : Value),
        getField (setField r f v) f = some v) := by
  constructor
  · intro decls argv arg optName inl o i r hsplit hmatch hty
    have hfind : (options decls).find? (fun q => q.matches optName) = some o := hmatch
    calc tryParseOption decls argv arg i r
        = optionLoop argv arg optName inl i r decls := by
          simp only [tryParseOption, hsplit]
      _ = handleOption argv arg optName inl o i r := by
          rw [optionLoop_eq_find, hfind]
      _ = _ := by
          unfold handleOption
          rw [if_pos hty]
  · exact getField_setField

/-- C6 witness: a concrete bare boolean flag assigning `true`, and the
assigned value overwriting a previous write of `false`. -/
theorem matched_bool_flag_semantics_witness :
    tryParseOption [Decl.option ⟨"-a", "--flag1", FieldTy.bool, 0⟩]
        ["prog", "-a"] "-a" 1 [(0, Value.bool false)] =
      (ParseResult.success, false, [(0, Value.bool true), (0, Value.bool false)])
    ∧ getField (setField [(0, Value.bool false)] 0 (Value.bool true)) 0 =
        some (Value.bool true) :=
  ⟨(matched_bool_flag_semantics.1
      [Decl.option ⟨"-a", "--flag1", FieldTy.bool, 0⟩]
      ["prog", "-a"] "-a" "-a" none ⟨"-a", "--flag1", FieldTy.bool, 0⟩
      1 [(0, Value.bool false)] (by decide) (by decide) (by decide)).trans (by decide),
    matched_bool_flag_semantics.2 [(0, Value.bool false)] 0 (Value.bool true)⟩

/-- C2: when the scanned token is the separator `--` and a further token
exists, scanning stops immediately with the variadic start right after the
separator, and applying the variadic assignment writes exactly the suffix
after the separator (in original order, unexamined) to the variadic field;
when no further token exists, scanning stops with no variadic start. -/
theorem separator_scan_behavior (decls : List Decl) (argv : List String)
    (fuel i count : Nat) (r : Record)
    (hv : hasVarArgs decls = true) (hi : i < argv.length)
    (ht : argv.getD i "" = "--") :
    (i + 1 < argv.length →
      scanLoop decls argv (fuel + 1) i count r = ScanOut.done count (some (i + 1)) r
      ∧ ∃ f, (varArgsFields decls).getLast? = some f ∧
          getField (setVarArgs decls argv (i + 1) r) f =
            some (Value.span (argv.drop (i + 1))))
    ∧ (¬ i + 1 < argv.length →
        scanLoop decls argv (fuel + 1) i count r = ScanOut.done count none r) := by
  obtain ⟨f, hf⟩ := getLast?_isSome_of_ne_nil ((hasVarArgs_iff_fields decls).mp hv)
  constructor
  · intro hn
    refine ⟨?_, f, hf, ?_⟩
    · simp only [scanLoop, if_pos hi]
      rw [ht]
      simp [hn]
    · simp [setVarArgs, hf, getField_setField]
  · intro hn
    simp only [scanLoop, if_pos hi]
    rw [ht]
    simp [hn]

/-- C2 witness: the separator at index 1 of a four-token vector with a
declared variadic slot. -/
theorem separator_scan_behavior_witness :
    scanLoop [Decl.varargs 1] ["prog", "--", "a", "b"] (0 + 1) 1 0 [] =
      ScanOut.done 0 (some (1 + 1)) []
    ∧ getField (setVarArgs [Decl.varargs 1] ["prog", "--", "a", "b"] (1 + 1) []) 1 =
        some (Value.span ["a", "b"]) :=
  ⟨((separator_scan_behavior [Decl.varargs 1] ["prog", "--", "a", "b"] 0 1 0 []
      (by decide) (by decide) (by decide)).1 (by decide)).1,
    by decide⟩

/-- C8: a non-dash token arriving when every declared positional slot is
filled makes scanning stop immediately with the variadic slice starting at
that token when a variadic slot is declared (the slice being that token
and every remaining token), and yields `TooManyArgs` with context that
token when none is declared. -/
theorem positional_overflow_behavior (decls : List Decl) (argv : List String)
    (fuel i count : Nat) (r : Record)
    (hi : i < argv.length)
    (hd : startsWithDash (argv.getD i "") = false)
    (hc : (positionals decls).length ≤ count) :
    (hasVarArgs decls = true →
      scanLoop decls argv (fuel + 1) i count r = ScanOut.done count (some i) r
      ∧ ∃ f, (varArgsFields decls).getLast? = some f ∧
          getField (setVarArgs decls argv i r) f = some (Value.span (argv.drop i)))
    ∧ (hasVarArgs decls = false →
        scanLoop decls argv (fuel + 1) i count r =
          ScanOut.err (ParseResult.failure ParseError.TooManyArgs (argv.getD i "")) r) := by
  have hsep : argv.getD i "" ≠ "--" := by
    intro h
    rw [h] at hd
    exact absurd hd (by decide)
  have hdash : ¬ startsWithDash (argv.getD i "") = true := by rw [hd]; simp
  have hpos : tryParsePositional decls (argv.getD i "") count r =
      (ParseResult.failure ParseError.TooManyArgs (argv.getD i ""), r) :=
    positionalLoop_overflow (argv.getD i "") count r decls 0 (by omega)
  constructor
  · intro hv
    obtain ⟨f, hf⟩ := getLast?_isSome_of_ne_nil ((hasVarArgs_iff_fields decls).mp hv)
    refine ⟨?_, f, hf, ?_⟩
    · simp only [scanLoop, if_pos hi, if_neg hsep, if_neg hdash]
      rw [hpos]
      simp [ParseResult.isOk, ParseResult.failure, hv]
    · simp [setVarArgs, hf, getField_setField]
  · intro hv
    simp only [scanLoop, if_pos hi, if_neg hsep, if_neg hdash]
    rw [hpos]
    simp [ParseResult.isOk, ParseResult.failure, hv]

/-- C8 witness: the token "x" overflowing a declaration list with zero
positional slots, with and without a variadic slot. -/
theorem positional_overflow_behavior_witness :
    scanLoop [Decl.varargs 0] ["prog", "x"] (0 + 1) 1 0 [] = ScanOut.done 0 (some 1) []
    ∧ scanLoop [] ["prog", "x"] (0 + 1) 1 0 [] =
        ScanOut.err (ParseResult.failure ParseError.TooManyArgs "x") [] :=
  ⟨((positional_overflow_behavior [Decl.varargs 0] ["prog", "x"] 0 1 0 []
      (by decide) (by decide) (by decide)).1 (by decide)).1,
    ((positional_overflow_behavior [] ["prog", "x"] 0 1 0 []
      (by decide) (by decide) (by decide)).2 (by decide)).trans (by decide)⟩

/-- C10 counterexample: with declarations {string option `-s`} (no
variadic slot) and tokens `["prog","-s","--","x"]`, the separator is
consumed as the value of `-s`, scanning continues past it, and the token
"x" after the separator produces `TooManyArgs` — although the
required-slot check alone would have succeeded.  Tokens after a `--`
occurring in the sequence are therefore not always discarded silently. -/
theorem separator_tokens_after_cex :
    parse [Decl.option ⟨"-s", "", FieldTy.string, 0⟩] ["prog", "-s", "--", "x"] =
      (ParseResult.failure ParseError.TooManyArgs "x", [(0, Value.str "--")])
    ∧ hasVarArgs [Decl.option ⟨"-s", "", FieldTy.string, 0⟩] = false
    ∧ checkRequired [Decl.option ⟨"-s", "", FieldTy.string, 0⟩] 0 = ParseResult.success :=
  ⟨by decide, by decide, by decide⟩

/-- C10 (amended): when no variadic slot is declared and scanning reaches
the separator `--` as a scanned token, the scan stops there with the
record unchanged, and the variadic assignment step is the identity, so all
tokens after the separator are discarded without effect and the outcome is
determined by the required-slot check on the fill count reached before the
separator. -/
theorem separator_without_varargs (decls : List Decl) (argv : List String)
    (fuel i count : Nat) (r : Record)
    (hnv : hasVarArgs decls = false) (hi : i < argv.length)
    (ht : argv.getD i "" = "--") :
    scanLoop decls argv (fuel + 1) i count r =
      ScanOut.done count (if i + 1 < argv.length then some (i + 1) else none) r
    ∧ ∀ (s : Nat) (r₂ : Record), setVarArgs decls argv s r₂ = r₂ := by
  constructor
  · simp only [scanLoop, if_pos hi]
    rw [ht]
    simp
  · exact fun s r₂ => setVarArgs_of_no_varargs hnv argv s r₂

/-- C10 witness: the separator scanned at index 1 with no variadic slot
declared; the variadic assignment leaves a record untouched. -/
theorem separator_without_varargs_witness :
    scanLoop [] ["prog", "--", "z"] (0 + 1) 1 0 [] = ScanOut.done 0 (some (1 + 1)) []
    ∧ setVarArgs [] ["prog", "--", "z"] 2 [(7, Value.bool true)] = [(7, Value.bool true)] :=
  ⟨((separator_without_varargs [] ["prog", "--", "z"] 0 1 0 []
      (by decide) (by decide) (by decide)).1).trans (by decide),
    (separator_without_varargs [] ["prog", "--", "z"] 0 1 0 []
      (by decide) (by decide) (by decide)).2 2 [(7, Value.bool true)]⟩

/-- C1 counterexample: with declarations {required positional named "",
required positional "x"} and no argument tokens, both required slots are
unmet (the first unmet one, in declaration order, being the empty-named
slot), yet `checkRequired`, and hence `parse`, reports success: the
empty string collides with the sentinel for "nothing missing". -/
theorem required_slot_empty_name_cex :
    checkRequired [Decl.arg ⟨"", FieldTy.string, false, 0⟩,
        Decl.arg ⟨"x", FieldTy.string, false, 1⟩] 0 = ParseResult.success
    ∧ firstUnmetRequired [Decl.arg ⟨"", FieldTy.string, false, 0⟩,
        Decl.arg ⟨"x", FieldTy.string, false, 1⟩] 0 = some ""
    ∧ parse [Decl.arg ⟨"", FieldTy.string, false, 0⟩,
        Decl.arg ⟨"x", FieldTy.string, false, 1⟩] ["prog"] =
      (ParseResult.success, []) :=
  ⟨by decide, by decide, by decide⟩

/-- C1 (amended): provided every declared positional slot has a nonempty
name, the required check yields `MissingRequiredArg` with context the name
of the first non-optional slot, in declaration order, whose index was not
reached by the fill count, and success when every required slot is met;
and whenever the scan completes without an early error, `parse` returns
exactly the required check of the final fill count. -/
theorem required_slot_check (decls : List Decl) (count : Nat)
    (h : ∀ a ∈ positionals decls, a.name ≠ "") :
    (checkRequired decls count =
      match firstUnmetRequired decls count with
      | some nm => ParseResult.failure ParseError.MissingRequiredArg nm
      | none => ParseResult.success)
    ∧ (∀ (argv : List String) (c : Nat) (vs : Option Nat) (r : Record),
        scanLoop decls argv argv.length 1 0 [] = ScanOut.done c vs r →
        (parse decls argv).1 = checkRequired decls c) := by
  constructor
  · simp only [checkRequired, firstUnmetRequired]
    rw [requiredLoop_eq_firstUnmet]
    cases hfa : firstUnmetAux count (positionals decls) 0 with
    | none => simp
    | some nm =>
      obtain ⟨a, ha, han⟩ := firstUnmetAux_mem hfa
      have hne : nm ≠ "" := han ▸ h a ha
      simp [hne]
  · intro argv c vs r hscan
    unfold parse
    rw [hscan]

/-- C1 witness: a single unmet required slot named "name" is reported with
that context, and `parse` on a completed scan returns the required check. -/
theorem required_slot_check_witness :
    checkRequired [Decl.arg ⟨"name", FieldTy.string, false, 0⟩] 0 =
      ParseResult.failure ParseError.MissingRequiredArg "name"
    ∧ (parse [Decl.arg ⟨"name", FieldTy.string, false, 0⟩] ["prog"]).1 =
        checkRequired [Decl.arg ⟨"name", FieldTy.string, false, 0⟩] 0 :=
  ⟨((required_slot_check [Decl.arg ⟨"name", FieldTy.string, false, 0⟩] 0
      (by decide)).1).trans (by decide),
    (required_slot_check [Decl.arg ⟨"name", FieldTy.string, false, 0⟩] 0
      (by decide)).2 ["prog"] 0 none [] (by decide)⟩

/-- A field with no write in the log reads as absent (default value). -/
theorem getField_eq_none_of_not_written (r : Record) (f : Nat)
    (h : ∀ v, (f, v) ∉ r) : getField r f = none := by
  induction r with
  | nil => rfl
  | cons p r ih =>
    obtain ⟨g, v⟩ := p
    by_cases hg : g = f
    · exact absurd (List.mem_cons_self (g, v) r) (by rw [← hg] at h; exact h v)
    · simp only [getField, List.find?]
      rw [decide_eq_false hg]
      exact ih (fun v' hv' => h v' (List.mem_cons_of_mem _ hv'))

/-- C9: the scan only prepends to the record (no rollback of earlier
writes); on the first failing option token it returns that error
immediately with the record as accumulated; a field never written reads
as its default; and in a concrete run an earlier assignment survives a
later failure. -/
theorem fail_fast_no_rollback :
    (∀ (decls : List Decl) (argv : List String) (fuel i count : Nat) (r : Record),
      ∃ d, (scanLoop decls argv fuel i count r).record = d ++ r)
    ∧ (∀ (decls : List Decl) (argv : List String) (fuel i count : Nat) (r : Record)
        (res : ParseResult) (c : Bool) (r' : Record),
      i < argv.length →
      argv.getD i "" ≠ "--" →
      startsWithDash (argv.getD i "") = true →
      tryParseOption decls argv (argv.getD i "") i r = (res, c, r') →
      res.isOk = false →
      scanLoop decls argv (fuel + 1) i count r = ScanOut.err res r')
    ∧ (∀ (r : Record) (f : Nat), (∀ v, (f, v) ∉ r) → getField r f = none)
    ∧ parse [Decl.option ⟨"-a", "--flag1", FieldTy.bool, 0⟩] ["prog", "-a", "--bad"] =
        (ParseResult.failure ParseError.UnknownOption "--bad", [(0, Value.bool true)]) := by
  refine ⟨fun decls argv => scanLoop_record decls argv, ?_,
    getField_eq_none_of_not_written, by decide⟩
  intro decls argv fuel i count r res c r' hi hsep hdash htp hnok
  simp only [scanLoop, if_pos hi, if_neg hsep, if_pos hdash]
  rw [htp]
  simp [hnok]

/-- C9 witness: the failing token "--bad" at index 2 returns immediately
with the earlier write still in the record; an unwritten field reads as
absent. -/
theorem fail_fast_no_rollback_witness :
    scanLoop [Decl.option ⟨"-a", "--flag1", FieldTy.bool, 0⟩] ["prog", "-a", "--bad"]
        (0 + 1) 2 0 [(0, Value.bool true)] =
      ScanOut.err (ParseResult.failure ParseError.UnknownOption "--bad")
        [(0, Value.bool true)]
    ∧ getField [(5, Value.bool true)] 3 = none :=
  ⟨fail_fast_no_rollback.2.1 [Decl.option ⟨"-a", "--flag1", FieldTy.bool, 0⟩]
      ["prog", "-a", "--bad"] 0 2 0 [(0, Value.bool true)]
      (ParseResult.failure ParseError.UnknownOption "--bad") false [(0, Value.bool true)]
      (by decide) (by decide) (by decide) (by decide) (by decide),
    fail_fast_no_rollback.2.2.1 [(5, Value.bool true)] 3
      (by intro v hv; simp at hv)⟩

end Slic
